import Mathlib

/-!
Verification development for the project-review pipeline (reviewer.py).

The pipeline drives a multi-turn chat session: it keeps a transcript of
role-tagged turns (the global chat_history), submits prompts through
call_ollama_chat, renders a directory tree, collects source files by
extension while pruning excluded directories, budgets the file list under
an optional limit, and finally clears the transcript.

The filesystem is modelled as a finite tree of named files and
directories; the chat collaborator is modelled as a function from the
transcript to either an assistant reply or a transport error.
-/

namespace Reviewer

/-- Role of one chat turn, mirroring the "role" field of chat_history
entries in reviewer.py. -/
inductive Role where
  | user : Role
  | assistant : Role
deriving DecidableEq, Repr

/-- One chat turn: a role-tagged message, mirroring one element of the
chat_history list. -/
structure Turn where
  role : Role
  content : String
deriving DecidableEq, Repr

/-- A filesystem entry: a named file with content, or a named directory
with a list of entries. -/
inductive FSTree where
  | file (name : String) (content : String) : FSTree
  | dir (name : String) (entries : List FSTree) : FSTree

/-- The name of a filesystem entry (item.name in reviewer.py). -/
def FSTree.nameOf : FSTree → String
  | .file n _ => n
  | .dir n _ => n

/-- ALLOWED_EXTENSIONS from reviewer.py (a set; modelled as a list,
membership is what matters). -/
def ALLOWED_EXTENSIONS : List String :=
  [".py", ".cpp", ".h", ".hpp", ".c", ".java", ".js", ".ts", ".cs", ".go"]

/-- EXCLUDED_DIRS from reviewer.py. -/
def EXCLUDED_DIRS : List String :=
  [".git", ".idea", ".vscode", "__pycache__", ".venv", "build"]

/-- The per-file character cap applied to file content before it is
embedded in a review prompt (the [:3000] slice in reviewer.py). -/
def FILE_CHAR_CAP : Nat := 3000

/-- Index of the last occurrence of a dot in a character list, scanning
from position i (models str.rfind applied by pathlib). -/
def lastDot : List Char → Nat → Option Nat → Option Nat
  | [], _, acc => acc
  | c :: rest, i, acc => lastDot rest (i + 1) (if c = '.' then some i else acc)

/-- pathlib's PurePath.suffix on a final path component: the extension
with its dot, or "" when the last dot is at index 0 (dotfile), absent, or
the final character. -/
def pathSuffix (name : String) : String :=
  match lastDot name.toList 0 none with
  | some i =>
      if 0 < i ∧ i < name.toList.length - 1 then String.mk (name.toList.drop i) else ""
  | none => ""

/-- pathlib's PurePath.stem on a final path component: the name with the
suffix removed. -/
def pathStem (name : String) : String :=
  match lastDot name.toList 0 none with
  | some i =>
      if 0 < i ∧ i < name.toList.length - 1 then String.mk (name.toList.take i) else name
  | none => name

/-- file.suffix.lstrip of the dot character, used to tag the code block in
a review prompt. -/
def extOf (name : String) : String :=
  String.mk ((pathSuffix name).toList.dropWhile (fun c => c = '.'))

/-- Python's substring test (pattern in s). -/
def strContains (s pattern : String) : Bool :=
  decide (pattern.toList <:+: s.toList)

/-- Insert an entry into a name-sorted list of entries, keeping the list
sorted by name (stable, like Python's sorted). -/
def insertByName (e : FSTree) : List FSTree → List FSTree
  | [] => [e]
  | x :: xs => if e.nameOf ≤ x.nameOf then e :: x :: xs else x :: insertByName e xs

/-- Sort directory entries by name: models sorted(path.iterdir()), which
within one directory orders entries by their final name component. -/
def sortByName : List FSTree → List FSTree
  | [] => []
  | x :: xs => insertByName x (sortByName xs)

theorem mem_insertByName {a e : FSTree} {l : List FSTree} :
    a ∈ insertByName e l ↔ a = e ∨ a ∈ l := by
  induction l with
  | nil => simp [insertByName]
  | cons x xs ih =>
      simp only [insertByName]
      split
      · simp
      · simp only [List.mem_cons, ih]
        tauto

theorem mem_sortByName {a : FSTree} {l : List FSTree} :
    a ∈ sortByName l ↔ a ∈ l := by
  induction l with
  | nil => simp [sortByName]
  | cons x xs ih => simp [sortByName, mem_insertByName, ih]

theorem sizeOf_insertByName (e : FSTree) (l : List FSTree) :
    sizeOf (insertByName e l) = 1 + sizeOf e + sizeOf l := by
  induction l with
  | nil => simp [insertByName]
  | cons x xs ih =>
      simp only [insertByName]
      split
      · simp
      · simp only [List.cons.sizeOf_spec, ih]
        omega

theorem sizeOf_sortByName (l : List FSTree) : sizeOf (sortByName l) = sizeOf l := by
  induction l with
  | nil => simp [sortByName]
  | cons x xs ih => simp [sortByName, sizeOf_insertByName, ih]

/-- The per-level loop of generate_project_tree, instrumented with the
path of the directory being listed: for each entry of the (sorted)
listing it records the entry's component path together with the rendered
line, skipping entries whose name is in EXCLUDED_DIRS, and recursing into
subdirectories with a deeper indent (the recursion mirrors
generate_project_tree(item, indent + four spaces of bar)). -/
def treeItems : List FSTree → String → List String → List (List String × String)
  | [], _, _ => []
  | item :: rest, indent, cur =>
      (if EXCLUDED_DIRS.contains item.nameOf then []
       else
         (cur ++ [item.nameOf], indent ++ "├── " ++ item.nameOf) ::
           (match item with
            | FSTree.dir _ sub =>
                treeItems (sortByName sub) (indent ++ "│   ") (cur ++ [item.nameOf])
            | FSTree.file _ _ => []))
      ++ treeItems rest indent cur
termination_by l _ _ => sizeOf l
decreasing_by
  all_goals simp only [List.cons.sizeOf_spec, FSTree.dir.sizeOf_spec, sizeOf_sortByName]
  all_goals omega

/-- The rendered tree entries of a project root: each item the tree shows
for the root directory, as (component path relative to the root, rendered
line). A non-directory root renders nothing (the source only calls the
renderer on a directory, after the isdir check). -/
def generate_project_tree_items (t : FSTree) : List (List String × String) :=
  match t with
  | FSTree.file _ _ => []
  | FSTree.dir _ entries => treeItems (sortByName entries) "" []

/-- The string rendering of generate_project_tree: the same traversal as
treeItems, joined with newlines (sub-renders are joined into one element
of the lines list, exactly as the source appends the recursive call's
string). -/
def treeRender : List FSTree → String → List String
  | [], _ => []
  | item :: rest, indent =>
      (if EXCLUDED_DIRS.contains item.nameOf then []
       else
         (indent ++ "├── " ++ item.nameOf) ::
           (match item with
            | FSTree.dir _ sub =>
                [String.intercalate "\n" (treeRender (sortByName sub) (indent ++ "│   "))]
            | FSTree.file _ _ => []))
      ++ treeRender rest indent
termination_by l _ => sizeOf l
decreasing_by
  all_goals simp only [List.cons.sizeOf_spec, FSTree.dir.sizeOf_spec, sizeOf_sortByName]
  all_goals omega

/-- generate_project_tree from reviewer.py, as the final joined string. -/
def generate_project_tree (t : FSTree) (indent : String) : String :=
  match t with
  | FSTree.file _ _ => ""
  | FSTree.dir _ entries => String.intercalate "\n" (treeRender (sortByName entries) indent)

/-- Whether a filename has an allowed suffix:
filepath.suffix.lower() in ALLOWED_EXTENSIONS. -/
def allowedSuffix (name : String) : Bool :=
  ALLOWED_EXTENSIONS.contains (pathSuffix name).toLower

/-- The files collected at one level of os.walk: for every regular-file
entry whose suffix is allowed, the component path cur ++ [name]
(Path(root) / filename). -/
def levelFiles (entries : List FSTree) (cur : List String) : List (List String) :=
  entries.filterMap fun e =>
    match e with
    | FSTree.file fname _ => if allowedSuffix fname then some (cur ++ [fname]) else none
    | FSTree.dir _ _ => none

/-- The descent of os.walk below one level: subdirectories are visited in
listing order, except those pruned by
dirs[:] = [d for d in dirs if d not in EXCLUDED_DIRS]; each visited
subdirectory contributes its own level's files followed by its own
descent (top-down depth-first order). -/
def subdirsWalk : List FSTree → List String → List (List String)
  | [], _ => []
  | FSTree.file _ _ :: rest, cur => subdirsWalk rest cur
  | FSTree.dir n es :: rest, cur =>
      (if EXCLUDED_DIRS.contains n then []
       else levelFiles es (cur ++ [n]) ++ subdirsWalk es (cur ++ [n]))
      ++ subdirsWalk rest cur
termination_by l _ => sizeOf l
decreasing_by
  all_goals simp only [List.cons.sizeOf_spec, FSTree.dir.sizeOf_spec]
  all_goals omega

/-- collect_source_files from reviewer.py: all files under the root with
an allowed extension, as component paths relative to the root, in os.walk
top-down order, never descending into EXCLUDED_DIRS. -/
def collect_source_files : FSTree → List (List String)
  | FSTree.file _ _ => []
  | FSTree.dir _ entries => levelFiles entries [] ++ subdirsWalk entries []

/-- important_patterns from the budgeting branch of analyze_project. -/
def important_patterns : List String := ["main", "app", "core", "index"]

/-- Whether a file path matches an importance marker:
any(pattern in f.stem.lower() for pattern in important_patterns), where
the stem is taken from the final path component. -/
def isImportantPath (f : List String) : Bool :=
  important_patterns.any fun pattern => strContains (pathStem (f.getLastD "")).toLower pattern

/-- important_files from the budgeting branch. -/
def important_files (files : List (List String)) : List (List String) :=
  files.filter isImportantPath

/-- other_files from the budgeting branch:
[f for f in files if f not in important_files]. -/
def other_files (files : List (List String)) : List (List String) :=
  files.filter fun f => !(important_files files).contains f

/-- The file budgeting step of analyze_project: the reorder-and-truncate
runs only when the limit is set, nonzero (Python truthiness of
file_limit) and exceeded; otherwise the list is returned unchanged. -/
def budget (files : List (List String)) (file_limit : Option Nat) : List (List String) :=
  match file_limit with
  | none => files
  | some k =>
      if k ≠ 0 ∧ files.length > k then (important_files files ++ other_files files).take k
      else files

/-- A user turn as appended by call_ollama_chat. -/
def mkUser (c : String) : Turn := ⟨Role.user, c⟩

/-- An assistant turn as appended by call_ollama_chat. -/
def mkAssistant (c : String) : Turn := ⟨Role.assistant, c⟩

/-- The placeholder message returned by call_ollama_chat when the request
raises a RequestException. -/
def ollamaErrorMsg (e : String) : String :=
  "[Error communicating with Ollama: " ++ e ++ "]"

/-- call_ollama_chat from reviewer.py over an explicit transcript: append
the user turn, invoke the collaborator on the whole transcript; on
success append the assistant turn and return its content, on transport
error return the placeholder message leaving the transcript with only
the user turn appended. The collaborator (requests.post plus JSON
extraction and strip) is the external oracle parameter. -/
def call_ollama_chat (oracle : List Turn → Except String String)
    (chat_history : List Turn) (user_prompt : String) : List Turn × String :=
  let h := chat_history ++ [mkUser user_prompt]
  match oracle h with
  | Except.ok assistant_message => (h ++ [mkAssistant assistant_message], assistant_message)
  | Except.error e => (h, ollamaErrorMsg e)

/-- The turns one submission appends, as determined by the collaborator's
answer on the extended transcript: a user/assistant pair on success, the
user turn alone on failure. -/
def submitTurns (oracle : List Turn → Except String String)
    (chat_history : List Turn) (user_prompt : String) : List Turn :=
  match oracle (chat_history ++ [mkUser user_prompt]) with
  | Except.ok r => [mkUser user_prompt, mkAssistant r]
  | Except.error _ => [mkUser user_prompt]

theorem call_ollama_chat_fst (oracle : List Turn → Except String String)
    (h : List Turn) (u : String) :
    (call_ollama_chat oracle h u).1 = h ++ submitTurns oracle h u := by
  unfold call_ollama_chat submitTurns
  cases ho : oracle (h ++ [mkUser u]) <;> simp [ho]

/-- chat_history.clear() from analyze_project. -/
def resetChat (_chat_history : List Turn) : List Turn := []

/-- A sequence of submissions: each call carries its prompt and the
collaborator behaviour in effect for that call (the service may succeed
or fail per call). The transcript threads through exactly as the global
chat_history does. -/
def runChat (h0 : List Turn) :
    List (String × (List Turn → Except String String)) → List Turn
  | [] => h0
  | (u, orc) :: rest => runChat (call_ollama_chat orc h0 u).1 rest

/-- The role of prev followed by the roles of the turns, used to check
that every assistant turn is immediately preceded by a user turn. -/
def rolesOK : Option Role → List Turn → Bool
  | _, [] => true
  | prev, t :: ts =>
      (decide (t.role = Role.user) || decide (prev = some Role.user)) && rolesOK (some t.role) ts

/-- The last role of a list of turns, starting from prev. -/
def lastRoleFrom (prev : Option Role) : List Turn → Option Role
  | [] => prev
  | t :: ts => lastRoleFrom (some t.role) ts

/-- Every assistant turn of the transcript is immediately preceded by a
user turn (and the transcript does not open with an assistant turn). -/
def assistantsPreceded (l : List Turn) : Bool := rolesOK none l

/-- Render a component path for display inside a prompt (str(file)). -/
def renderPath (f : List String) : String := String.intercalate "/" f

/-- The stage-1 prompt embedding the project description and README. -/
def description_prompt (project_description project_readme : String) : String :=
  "This is a description of the project:\n\n" ++ project_description ++
    "\n\nThis is the provided README.md file:\n\n" ++ project_readme ++
    "\n\nUse this to understand its purpose."

/-- The stage-2 prompt embedding the rendered directory tree. -/
def tree_prompt (tree_str : String) : String :=
  "Here is the project's folder structure:\n\n" ++ tree_str ++
    "\n\nComment on any organization or architecture issues."

/-- The per-file review prompt (plain-print branch of analyze_project),
embedding the file path, its extension tag and the capped code. -/
def review_prompt (file : List String) (code : String) : String :=
  "You are a senior code reviewer. Please review the following file for:\n" ++
    "                - Bugs\n" ++
    "                - Security issues\n" ++
    "                - Logic errors\n" ++
    "                - Style issues\n" ++
    "                - Maintainability\n" ++
    "                File: " ++ renderPath file ++ " Code:```" ++
    extOf (file.getLastD "") ++ "\n" ++ code ++ "```"

/-- The stage-4 project-wide summary prompt. -/
def summary_prompt : String :=
  "Based on your previous reviews of each file/files that were provided in previous prompts provided, provide a detailed project-wide summary. Please include:\n" ++
    "           1. Any critical bugs\n" ++
    "           2. Potential security issues\n" ++
    "           3. Overall architectural problems\n" ++
    "           4. Logic or flow issues\n" ++
    "           5. Best practice violations\n" ++
    "           Avoid repeating raw code. Be concise and actionable.\n"

/-- README.md lookup at the project root: the file's stripped content
when a root entry is the file README.md, otherwise the sentinel. -/
def readmeText (entries : List FSTree) : String :=
  match entries.find? (fun e => e.nameOf == "README.md") with
  | some (FSTree.file _ content) => content.trim
  | _ => "README.md not found."

/-- description.txt lookup at the project root (read in the script's
main block, overriding the CLI description when present as a file). -/
def descriptionTxt (entries : List FSTree) : Option String :=
  match entries.find? (fun e => e.nameOf == "description.txt") with
  | some (FSTree.file _ content) => some content.trim
  | _ => none

/-- Resolve a component path to a file's content under the given
entries. -/
def lookupPath (entries : List FSTree) : List String → Option String
  | [] => none
  | [n] =>
      match entries.find? (fun e => e.nameOf == n) with
      | some (FSTree.file _ c) => some c
      | _ => none
  | n :: rest =>
      match entries.find? (fun e => e.nameOf == n) with
      | some (FSTree.dir _ es) => lookupPath es rest
      | _ => none

/-- Cap file content at FILE_CHAR_CAP characters: the [:3000] slice
applied to file.read_text(...) in the review loop. -/
def capCode (code : String) : String := String.mk (code.toList.take FILE_CHAR_CAP)

/-- file.read_text followed by the cap, with the except branch of the
review loop: an unreadable file yields the placeholder content. -/
def readCap (entries : List FSTree) (f : List String) : String :=
  match lookupPath entries f with
  | some c => capCode c
  | none => "# Error reading file content"

/-- What the filesystem holds at the path the script was pointed at:
nothing, a regular file, or a directory tree. -/
inductive PathTarget where
  | missing : PathTarget
  | present : FSTree → PathTarget

/-- The pre-flight validity check of analyze_project:
not os.path.isdir(project_dir) or not project_path.exists(). -/
def invalidTarget : PathTarget → Bool
  | .missing => true
  | .present (FSTree.file _ _) => true
  | .present (FSTree.dir _ _) => false

/-- The error line printed when the pre-flight check fails. -/
def pathError (project_dir : String) : String :=
  "[Error] Path does not exist or is not a directory: " ++ project_dir

/-- The observable outcome of one analyze_project call: the state of the
global chat_history when the call returns, the user prompts submitted to
the collaborator in order, whether the call bailed out at the pre-flight
check, and the error lines it printed. -/
structure AnalyzeResult where
  history : List Turn
  prompts : List String
  failed : Bool
  diagnostics : List String
deriving DecidableEq, Repr

/-- analyze_project from reviewer.py. On an invalid path it prints the
diagnostic and returns before any chat interaction. Otherwise it submits
the description prompt, the tree prompt, one review prompt per budgeted
file (threading the transcript through every call), the summary prompt,
and finally clears the transcript. -/
def analyze_project (oracle : List Turn → Except String String)
    (target : PathTarget) (project_dir project_description : String)
    (file_limit : Option Nat) (h0 : List Turn) : AnalyzeResult :=
  match target with
  | .missing => ⟨h0, [], true, [pathError project_dir]⟩
  | .present (FSTree.file _ _) => ⟨h0, [], true, [pathError project_dir]⟩
  | .present (FSTree.dir rootName entries) =>
      let project_readme := readmeText entries
      let p1 := description_prompt project_description project_readme
      let s1 := call_ollama_chat oracle h0 p1
      let tree_str := generate_project_tree (FSTree.dir rootName entries) ""
      let p2 := tree_prompt tree_str
      let s2 := call_ollama_chat oracle s1.1 p2
      let files0 := collect_source_files (FSTree.dir rootName entries)
      let files := budget files0 file_limit
      let filePrompts := files.map fun f => review_prompt f (readCap entries f)
      let h3 := filePrompts.foldl (fun h p => (call_ollama_chat oracle h p).1) s2.1
      let s4 := call_ollama_chat oracle h3 summary_prompt
      { history := resetChat s4.1
        prompts := p1 :: p2 :: filePrompts ++ [summary_prompt]
        failed := false
        diagnostics := [] }

/-- The script's main block: resolve the description (CLI value or its
default, overridden by a description.txt file at the root), run
analyze_project on an initially empty chat_history, and finish. The
script never raises past analyze_project and never calls sys.exit, so
the process exit status is 0. -/
def main_script (oracle : List Turn → Except String String)
    (target : PathTarget) (project_dir : String) (cli_description : Option String)
    (file_limit : Option Nat) : AnalyzeResult × Nat :=
  let project_description := cli_description.getD "This is an app"
  let project_description :=
    match target with
    | .present (FSTree.dir _ entries) =>
        (descriptionTxt entries).getD project_description
    | _ => project_description
  (analyze_project oracle target project_dir project_description file_limit [], 0)

/-- A collaborator that always answers. -/
def constOkOracle : List Turn → Except String String := fun _ => Except.ok "ok"

/-- A collaborator whose transport always fails. -/
def failOracle : List Turn → Except String String := fun _ => Except.error "boom"

theorem rolesOK_append (p : Option Role) (l1 l2 : List Turn) :
    rolesOK p (l1 ++ l2) = (rolesOK p l1 && rolesOK (lastRoleFrom p l1) l2) := by
  induction l1 generalizing p with
  | nil => simp [rolesOK, lastRoleFrom]
  | cons t ts ih => simp [rolesOK, lastRoleFrom, ih, Bool.and_assoc]

theorem rolesOK_submitTurns (q : Option Role)
    (orc : List Turn → Except String String) (h : List Turn) (u : String) :
    rolesOK q (submitTurns orc h u) = true := by
  unfold submitTurns
  cases orc (h ++ [mkUser u]) <;> simp [rolesOK, mkUser, mkAssistant]

theorem submitTurns_cons (orc : List Turn → Except String String)
    (h : List Turn) (u : String) :
    ∃ rest, submitTurns orc h u = mkUser u :: rest := by
  unfold submitTurns
  cases orc (h ++ [mkUser u]) with
  | ok r => exact ⟨[mkAssistant r], rfl⟩
  | error e => exact ⟨[], rfl⟩

theorem call_ollama_chat_grows (orc : List Turn → Except String String)
    (h : List Turn) (u : String) :
    h.length < (call_ollama_chat orc h u).1.length := by
  rw [call_ollama_chat_fst]
  obtain ⟨rest, hr⟩ := submitTurns_cons orc h u
  simp [hr]

theorem assistantsPreceded_call (orc : List Turn → Except String String)
    (h : List Turn) (u : String) (hh : assistantsPreceded h = true) :
    assistantsPreceded (call_ollama_chat orc h u).1 = true := by
  unfold assistantsPreceded at *
  rw [call_ollama_chat_fst, rolesOK_append, hh, rolesOK_submitTurns]
  rfl

theorem assistantsPreceded_runChat (calls : List (String × (List Turn → Except String String)))
    (h : List Turn) (hh : assistantsPreceded h = true) :
    assistantsPreceded (runChat h calls) = true := by
  induction calls generalizing h with
  | nil => exact hh
  | cons c rest ih =>
      exact ih (call_ollama_chat c.2 h c.1).1 (assistantsPreceded_call c.2 h c.1 hh)

/-- Claim C1: when the chat collaborator fails with a transport error on
a submission, call_ollama_chat leaves the transcript with the user turn
appended and no assistant turn, returns the placeholder error message to
the caller, and the session still accepts further submissions: any later
call appends its user turn to the transcript as usual. -/
theorem C1_submit_failure (oracle : List Turn → Except String String)
    (history : List Turn) (u e : String)
    (hfail : oracle (history ++ [mkUser u]) = Except.error e) :
    (call_ollama_chat oracle history u).1 = history ++ [mkUser u] ∧
    (call_ollama_chat oracle history u).2 = ollamaErrorMsg e ∧
    (∀ (orc2 : List Turn → Except String String) (v : String), ∃ rest,
      (call_ollama_chat orc2 (call_ollama_chat oracle history u).1 v).1
        = (call_ollama_chat oracle history u).1 ++ (mkUser v :: rest)) := by
  have h1 : (call_ollama_chat oracle history u).1 = history ++ [mkUser u] := by
    unfold call_ollama_chat
    simp [hfail]
  refine ⟨h1, ?_, ?_⟩
  · unfold call_ollama_chat
    simp [hfail]
  · intro orc2 v
    obtain ⟨rest, hr⟩ := submitTurns_cons orc2 (call_ollama_chat oracle history u).1 v
    exact ⟨rest, by rw [call_ollama_chat_fst, hr]⟩

/-- Witness for C1 at a concrete failing collaborator. -/
theorem C1_submit_failure_witness :
    (call_ollama_chat failOracle [] "hi").1 = [] ++ [mkUser "hi"] ∧
    (call_ollama_chat failOracle [] "hi").2 = ollamaErrorMsg "boom" :=
  ⟨(C1_submit_failure failOracle [] "hi" "boom" rfl).1,
   (C1_submit_failure failOracle [] "hi" "boom" rfl).2.1⟩

/-- Claim C2: over any sequence of submissions, each succeeding or
failing as its collaborator behaviour dictates, every assistant turn of
the resulting transcript is immediately preceded by a user turn; each
submission only appends its own turns after the unchanged previous
transcript (nothing is reordered or removed), so the transcript strictly
grows during submit; only the reset operation yields a shorter (empty)
transcript. -/
theorem C2_transcript_invariants :
    (∀ calls : List (String × (List Turn → Except String String)),
      assistantsPreceded (runChat [] calls) = true) ∧
    (∀ (orc : List Turn → Except String String) (h : List Turn) (u : String),
      (call_ollama_chat orc h u).1 = h ++ submitTurns orc h u ∧
      h.length < (call_ollama_chat orc h u).1.length) ∧
    (∀ h : List Turn, resetChat h = []) := by
  refine ⟨fun calls => assistantsPreceded_runChat calls [] rfl, ?_, fun _ => rfl⟩
  intro orc h u
  exact ⟨call_ollama_chat_fst orc h u, call_ollama_chat_grows orc h u⟩

/-- Counterexample to claim C7: a submission attempted after reset is
accepted and does produce transcript entries and a reply — with an
answering collaborator it yields a two-turn transcript and the reply,
so the Cleared state is not terminal. -/
theorem C7_submit_after_reset_counterexample :
    (call_ollama_chat constOkOracle (resetChat [mkUser "a"]) "b").1.length = 2 ∧
    (call_ollama_chat constOkOracle (resetChat [mkUser "a"]) "b").2 = "ok" :=
  ⟨rfl, rfl⟩

/-- Claim C7 as amended: reset always yields the empty transcript and is
idempotent, but it is not a terminal state: a submission after reset is
accepted and behaves exactly like a submission on a fresh session,
starting the transcript with that submission's turns. -/
theorem C7_reset_behavior (h : List Turn) :
    resetChat h = [] ∧
    resetChat (resetChat h) = resetChat h ∧
    (∀ (orc : List Turn → Except String String) (u : String),
      (call_ollama_chat orc (resetChat h) u).1 = submitTurns orc [] u) := by
  refine ⟨rfl, rfl, fun orc u => ?_⟩
  rw [show resetChat h = [] from rfl, call_ollama_chat_fst]
  simp

theorem contains_important (files : List (List String)) (x : List String)
    (hx : x ∈ files) : (important_files files).contains x = isImportantPath x := by
  have himp : (important_files files).contains x = true ↔
      (x ∈ files ∧ isImportantPath x = true) := by
    simp [important_files, List.contains, List.elem_iff, List.mem_filter]
  by_cases h : isImportantPath x = true
  · rw [himp.mpr ⟨hx, h⟩, h]
  · have h1 : isImportantPath x = false := by simpa using h
    have h2 : (important_files files).contains x = false := by
      rcases hc : (important_files files).contains x with _ | _
      · rfl
      · exact absurd (himp.mp hc).2 h
    rw [h1, h2]

theorem other_files_eq (files : List (List String)) :
    other_files files = files.filter fun f => !isImportantPath f := by
  unfold other_files
  exact List.filter_congr fun x hx => by rw [contains_important files x hx]

/-- Counterexample to claim C3: the claim quantifies over every limit k
below the list length, but the code's budget condition treats a limit of
0 as unset (Python truthiness), so with k = 0 and a one-element list the
budgeted result keeps that element — more than k files. -/
theorem C3_zero_limit_counterexample :
    budget [["a.py"]] (some 0) = [["a.py"]] ∧
    ¬ ((budget [["a.py"]] (some 0)).length ≤ 0) := by
  refine ⟨rfl, ?_⟩
  decide

/-- Claim C3 as amended: for every candidate list and every positive
limit k smaller than the list's length, the budgeted result is the
importance-matching files followed by the rest (each partition truncated
in order), has at most k files, every file of the first part matches an
importance marker, every file of the second part matches none, and each
part is a subsequence of the input list (relative input order is
preserved in both partitions). -/
theorem C3_budget_priority (files : List (List String)) (k : Nat)
    (hk : 0 < k) (hlen : k < files.length) :
    budget files (some k)
      = (important_files files).take k
        ++ (other_files files).take (k - (important_files files).length) ∧
    (budget files (some k)).length ≤ k ∧
    ((important_files files).take k).all isImportantPath = true ∧
    ((other_files files).take (k - (important_files files).length)).all
      (fun f => !isImportantPath f) = true ∧
    List.Sublist ((important_files files).take k) files ∧
    List.Sublist ((other_files files).take (k - (important_files files).length)) files := by
  have hcond : k ≠ 0 ∧ files.length > k := ⟨by omega, hlen⟩
  have hbudget : budget files (some k) = (important_files files ++ other_files files).take k := by
    simp only [budget]
    rw [if_pos hcond]
  refine ⟨?_, ?_, ?_, ?_, ?_, ?_⟩
  · rw [hbudget, List.take_append_eq_append_take]
  · rw [hbudget]
    exact List.length_take_le k _
  · rw [List.all_eq_true]
    intro x hx
    have : x ∈ important_files files := (List.take_sublist k _).mem hx
    exact (List.mem_filter.mp this).2
  · rw [List.all_eq_true]
    intro x hx
    have : x ∈ other_files files := (List.take_sublist _ _).mem hx
    rw [other_files_eq] at this
    exact (List.mem_filter.mp this).2
  · exact (List.take_sublist k _).trans (List.filter_sublist files)
  · rw [other_files_eq]
    exact (List.take_sublist _ _).trans (List.filter_sublist files)

/-- Witness for C3 at a concrete list and limit: three files, limit 2;
the importance-matching main.py is kept first, one other file follows. -/
theorem C3_budget_priority_witness :
    budget [["main.py"], ["zz.py"], ["bb.py"]] (some 2)
      = (important_files [["main.py"], ["zz.py"], ["bb.py"]]).take 2
        ++ (other_files [["main.py"], ["zz.py"], ["bb.py"]]).take
            (2 - (important_files [["main.py"], ["zz.py"], ["bb.py"]]).length) ∧
    (budget [["main.py"], ["zz.py"], ["bb.py"]] (some 2)).length ≤ 2 ∧
    ((important_files [["main.py"], ["zz.py"], ["bb.py"]]).take 2).all isImportantPath = true ∧
    ((other_files [["main.py"], ["zz.py"], ["bb.py"]]).take
        (2 - (important_files [["main.py"], ["zz.py"], ["bb.py"]]).length)).all
      (fun f => !isImportantPath f) = true ∧
    List.Sublist ((important_files [["main.py"], ["zz.py"], ["bb.py"]]).take 2)
      [["main.py"], ["zz.py"], ["bb.py"]] ∧
    List.Sublist ((other_files [["main.py"], ["zz.py"], ["bb.py"]]).take
        (2 - (important_files [["main.py"], ["zz.py"], ["bb.py"]]).length))
      [["main.py"], ["zz.py"], ["bb.py"]] :=
  C3_budget_priority [["main.py"], ["zz.py"], ["bb.py"]] 2 (by decide) (by decide)

/-- Claim C4: budgeting with an unset limit returns the list unchanged,
budgeting with the list's own length as the limit returns it unchanged,
and so does any limit the list is already within. -/
theorem C4_budget_noop (files : List (List String)) :
    budget files none = files ∧
    budget files (some files.length) = files ∧
    (∀ k : Nat, files.length ≤ k → budget files (some k) = files) := by
  refine ⟨rfl, ?_, ?_⟩
  · simp only [budget]
    rw [if_neg]
    rintro ⟨-, h⟩
    omega
  · intro k hk
    simp only [budget]
    rw [if_neg]
    rintro ⟨-, h⟩
    omega

/-- Witness for C4 at a concrete list: no-op limits leave it unchanged. -/
theorem C4_budget_noop_witness :
    budget [["a.py"]] none = [["a.py"]] ∧
    budget [["a.py"]] (some 1) = [["a.py"]] ∧
    budget [["a.py"]] (some 5) = [["a.py"]] :=
  ⟨(C4_budget_noop [["a.py"]]).1,
   (C4_budget_noop [["a.py"]]).2.1,
   (C4_budget_noop [["a.py"]]).2.2 5 (by decide)⟩

/-- Claim C9: the content embedded in a review prompt is the file's
content capped at FILE_CHAR_CAP characters: the capped string is exactly
the first FILE_CHAR_CAP characters (its character list is the take of
the content's character list, with length min FILE_CHAR_CAP n), and
content within the cap is embedded unmodified. -/
theorem C9_truncation (content : String) :
    (capCode content).toList = content.toList.take FILE_CHAR_CAP ∧
    (capCode content).length = min FILE_CHAR_CAP content.length ∧
    (content.length ≤ FILE_CHAR_CAP → capCode content = content) := by
  refine ⟨rfl, ?_, ?_⟩
  · show (content.toList.take FILE_CHAR_CAP).length = min FILE_CHAR_CAP content.length
    rw [List.length_take]
    rfl
  · intro hle
    have h1 : content.toList.take FILE_CHAR_CAP = content.toList :=
      List.take_of_length_le hle
    unfold capCode
    rw [h1]
    rfl

/-- Witness for C9 at concrete strings: a short string is unchanged, and
the cap keeps exactly min FILE_CHAR_CAP n characters. -/
theorem C9_truncation_witness :
    capCode "hi" = "hi" ∧ (capCode "hi").length = min FILE_CHAR_CAP "hi".length :=
  ⟨(C9_truncation "hi").2.2 (by decide), (C9_truncation "hi").2.1⟩

/-- Claim C5: when the path the script is pointed at does not exist or
is not a directory, analyze_project fails before any chat interaction:
no prompt is submitted to the collaborator, the transcript is left
exactly as it was, and the call reports the pre-flight failure. -/
theorem C5_invalid_path (oracle : List Turn → Except String String)
    (target : PathTarget) (project_dir desc : String) (file_limit : Option Nat)
    (h0 : List Turn) (hinv : invalidTarget target = true) :
    (analyze_project oracle target project_dir desc file_limit h0).prompts = [] ∧
    (analyze_project oracle target project_dir desc file_limit h0).history = h0 ∧
    (analyze_project oracle target project_dir desc file_limit h0).failed = true := by
  match target with
  | .missing => exact ⟨rfl, rfl, rfl⟩
  | .present (FSTree.file _ _) => exact ⟨rfl, rfl, rfl⟩
  | .present (FSTree.dir _ _) => simp [invalidTarget] at hinv

/-- Witness for C5 at a concrete missing path. -/
theorem C5_invalid_path_witness :
    (analyze_project constOkOracle PathTarget.missing "/nope" "d" none []).prompts = [] ∧
    (analyze_project constOkOracle PathTarget.missing "/nope" "d" none []).history = [] ∧
    (analyze_project constOkOracle PathTarget.missing "/nope" "d" none []).failed = true :=
  C5_invalid_path constOkOracle PathTarget.missing "/nope" "d" none [] rfl

/-- Counterexample to claim C6: invoked on a missing project directory,
the script prints the diagnostic and returns normally — the process
completes with exit status 0, a success status, not a non-zero-equivalent
failure signal. -/
theorem C6_success_exit_counterexample :
    (main_script constOkOracle PathTarget.missing "/nope" none none).2 = 0 ∧
    (main_script constOkOracle PathTarget.missing "/nope" none none).1.failed = true :=
  ⟨rfl, rfl⟩

/-- Claim C6 as amended: on an invalid project directory the script
emits a clear diagnostic and does not proceed (no prompt is ever
submitted), but the process completes with exit status 0 — a success
status, not a non-zero failure signal. -/
theorem C6_invalid_dir_behavior (oracle : List Turn → Except String String)
    (target : PathTarget) (project_dir : String) (cli_description : Option String)
    (file_limit : Option Nat) (hinv : invalidTarget target = true) :
    (main_script oracle target project_dir cli_description file_limit).1.diagnostics
      = [pathError project_dir] ∧
    (main_script oracle target project_dir cli_description file_limit).1.prompts = [] ∧
    (main_script oracle target project_dir cli_description file_limit).2 = 0 := by
  match target with
  | .missing => exact ⟨rfl, rfl, rfl⟩
  | .present (FSTree.file _ _) => exact ⟨rfl, rfl, rfl⟩
  | .present (FSTree.dir _ _) => simp [invalidTarget] at hinv

/-- Witness for the amended C6 at a concrete missing path. -/
theorem C6_invalid_dir_behavior_witness :
    (main_script constOkOracle PathTarget.missing "/nope" none none).1.diagnostics
      = [pathError "/nope"] ∧
    (main_script constOkOracle PathTarget.missing "/nope" none none).1.prompts = [] ∧
    (main_script constOkOracle PathTarget.missing "/nope" none none).2 = 0 :=
  C6_invalid_dir_behavior constOkOracle PathTarget.missing "/nope" none none rfl

theorem FSTree.one_le_sizeOf (t : FSTree) : 1 ≤ sizeOf t := by
  cases t with
  | file n c => simp only [FSTree.file.sizeOf_spec]; omega
  | dir n es => simp only [FSTree.dir.sizeOf_spec]; omega

theorem all_dropLast {α : Type} (p : α → Bool) (l : List α) (h : l.all p = true) :
    l.dropLast.all p = true := by
  rw [List.all_eq_true] at *
  exact fun x hx => h x ((List.dropLast_sublist l).mem hx)

theorem bool_eq_false {b : Bool} (h : ¬(b = true)) : b = false := by
  rcases b with _ | _
  · rfl
  · exact absurd rfl h

theorem not_mem_of_not_contains {s : String} {l : List String}
    (h : ¬(l.contains s = true)) : s ∉ l :=
  fun hm => h (List.elem_iff.mpr hm)

theorem contains_eq_false_of_not_mem {s : String} {l : List String} (h : s ∉ l) :
    l.contains s = false := by
  rcases hb : l.contains s with _ | _
  · rfl
  · exact absurd (List.elem_iff.mp hb) h

theorem treeItems_path_aux : ∀ (n : Nat) (l : List FSTree), sizeOf l ≤ n →
    ∀ (indent : String) (cur : List String) (pl : List String × String),
    pl ∈ treeItems l indent cur →
    ∃ q, pl.1 = cur ++ q ∧ q.all (fun c => !(EXCLUDED_DIRS.contains c)) = true := by
  intro n
  induction n with
  | zero =>
      intro l hl
      cases l with
      | nil => intro indent cur pl h; simp [treeItems] at h
      | cons item rest =>
          exfalso
          simp only [List.cons.sizeOf_spec] at hl
          omega
  | succ n ih =>
      intro l hl
      cases l with
      | nil => intro indent cur pl h; simp [treeItems] at h
      | cons item rest =>
          intro indent cur pl hmem
          have hitem := FSTree.one_le_sizeOf item
          have hrest : sizeOf rest ≤ n := by
            simp only [List.cons.sizeOf_spec] at hl
            omega
          cases item with
          | file nm c =>
              rw [treeItems] at hmem
              simp only [FSTree.nameOf] at hmem
              rcases List.mem_append.mp hmem with h | h
              · by_cases hex : EXCLUDED_DIRS.contains nm = true
                · rw [if_pos hex] at h
                  simp at h
                · rw [if_neg hex] at h
                  rcases List.mem_cons.mp h with h | h
                  · exact ⟨[nm], by rw [h], by simp [bool_eq_false hex, not_mem_of_not_contains hex]⟩
                  · simp at h
              · exact ih rest hrest indent cur pl h
          | dir nm sub =>
              have hsub : sizeOf (sortByName sub) ≤ n := by
                simp only [List.cons.sizeOf_spec, FSTree.dir.sizeOf_spec] at hl
                rw [sizeOf_sortByName]
                omega
              rw [treeItems] at hmem
              simp only [FSTree.nameOf] at hmem
              rcases List.mem_append.mp hmem with h | h
              · by_cases hex : EXCLUDED_DIRS.contains nm = true
                · rw [if_pos hex] at h
                  simp at h
                · rw [if_neg hex] at h
                  rcases List.mem_cons.mp h with h | h
                  · exact ⟨[nm], by rw [h], by simp [bool_eq_false hex, not_mem_of_not_contains hex]⟩
                  · obtain ⟨q, hq1, hq2⟩ := ih (sortByName sub) hsub _ _ pl h
                    refine ⟨nm :: q, ?_, ?_⟩
                    · rw [hq1]
                      simp
                    · simp only [List.all_cons, hq2, Bool.and_true]
                      simp [bool_eq_false hex, not_mem_of_not_contains hex]
              · exact ih rest hrest indent cur pl h

theorem generate_project_tree_items_paths (t : FSTree) (pl : List String × String)
    (h : pl ∈ generate_project_tree_items t) :
    pl.1.all (fun c => !(EXCLUDED_DIRS.contains c)) = true := by
  cases t with
  | file n c => simp [generate_project_tree_items] at h
  | dir nm entries =>
      obtain ⟨q, hq1, hq2⟩ :=
        treeItems_path_aux (sizeOf (sortByName entries)) (sortByName entries) le_rfl "" [] pl h
      rw [hq1]
      simpa using hq2

theorem levelFiles_mem (entries : List FSTree) (cur : List String) (p : List String)
    (h : p ∈ levelFiles entries cur) : ∃ f, p = cur ++ [f] := by
  unfold levelFiles at h
  rcases List.mem_filterMap.mp h with ⟨e, _he, hfe⟩
  cases e with
  | file fn c =>
      by_cases ha : allowedSuffix fn = true
      · rw [show
            (match FSTree.file fn c with
              | FSTree.file fname _ =>
                  if allowedSuffix fname = true then some (cur ++ [fname]) else none
              | FSTree.dir _ _ => none)
              = if allowedSuffix fn = true then some (cur ++ [fn]) else none from rfl,
          if_pos ha] at hfe
        exact ⟨fn, (Option.some_inj.mp hfe).symm⟩
      · simp [ha] at hfe
  | dir nm es => simp at hfe

theorem subdirsWalk_path_aux : ∀ (n : Nat) (l : List FSTree), sizeOf l ≤ n →
    ∀ (cur : List String) (p : List String), p ∈ subdirsWalk l cur →
    ∃ q f, p = cur ++ q ++ [f] ∧ q.all (fun c => !(EXCLUDED_DIRS.contains c)) = true := by
  intro n
  induction n with
  | zero =>
      intro l hl
      cases l with
      | nil => intro cur p h; simp [subdirsWalk] at h
      | cons item rest =>
          exfalso
          simp only [List.cons.sizeOf_spec] at hl
          omega
  | succ n ih =>
      intro l hl
      cases l with
      | nil => intro cur p h; simp [subdirsWalk] at h
      | cons item rest =>
          intro cur p hmem
          have hitem := FSTree.one_le_sizeOf item
          have hrest : sizeOf rest ≤ n := by
            simp only [List.cons.sizeOf_spec] at hl
            omega
          cases item with
          | file nm c =>
              rw [subdirsWalk] at hmem
              exact ih rest hrest cur p hmem
          | dir nm es =>
              have hes : sizeOf es ≤ n := by
                simp only [List.cons.sizeOf_spec, FSTree.dir.sizeOf_spec] at hl
                omega
              rw [subdirsWalk] at hmem
              rcases List.mem_append.mp hmem with h | h
              · by_cases hex : EXCLUDED_DIRS.contains nm = true
                · rw [if_pos hex] at h
                  simp at h
                · rw [if_neg hex] at h
                  rcases List.mem_append.mp h with h | h
                  · obtain ⟨f, hf⟩ := levelFiles_mem es (cur ++ [nm]) p h
                    exact ⟨[nm], f, by rw [hf], by simp [bool_eq_false hex, not_mem_of_not_contains hex]⟩
                  · obtain ⟨q, f, hq1, hq2⟩ := ih es hes (cur ++ [nm]) p h
                    refine ⟨nm :: q, f, ?_, ?_⟩
                    · rw [hq1]
                      simp
                    · simp only [List.all_cons, hq2, Bool.and_true]
                      simp [bool_eq_false hex, not_mem_of_not_contains hex]
              · exact ih rest hrest cur p h

theorem collect_source_files_paths (t : FSTree) (p : List String)
    (h : p ∈ collect_source_files t) :
    p.dropLast.all (fun c => !(EXCLUDED_DIRS.contains c)) = true := by
  cases t with
  | file n c => simp [collect_source_files] at h
  | dir nm entries =>
      rw [collect_source_files] at h
      rcases List.mem_append.mp h with h | h
      · obtain ⟨f, hf⟩ := levelFiles_mem entries [] p h
        rw [hf]
        simp
      · obtain ⟨q, f, hq1, hq2⟩ :=
          subdirsWalk_path_aux (sizeOf entries) entries le_rfl [] p h
        rw [hq1]
        simp only [List.nil_append, List.dropLast_concat]
        exact hq2

/-- Claim C8: exclusion is recursive for both outputs of the catalog
builder: every rendered tree entry and every collected file candidate
lies on a path none of whose directory components (the components above
the entry itself) is in EXCLUDED_DIRS — nothing originates from inside
an excluded directory, at any depth. -/
theorem C8_exclusion_recursive :
    (∀ t : FSTree, (generate_project_tree_items t).all
        (fun pl => pl.1.dropLast.all fun c => !(EXCLUDED_DIRS.contains c)) = true) ∧
    (∀ t : FSTree, (collect_source_files t).all
        (fun p => p.dropLast.all fun c => !(EXCLUDED_DIRS.contains c)) = true) := by
  constructor
  · intro t
    rw [List.all_eq_true]
    intro pl hpl
    exact all_dropLast _ _ (generate_project_tree_items_paths t pl hpl)
  · intro t
    rw [List.all_eq_true]
    intro p hp
    exact collect_source_files_paths t p hp

/-- Claim C10: the tree renderer's exclusion test applies to every entry
name, not only directories: no component of any rendered entry's path —
the entry's own name included — is in EXCLUDED_DIRS, so a regular file
named exactly like an excluded directory never appears as a tree line;
concretely, a root holding a single regular file named build renders no
line at all. -/
theorem C10_excluded_names_never_render :
    (∀ t : FSTree, (generate_project_tree_items t).all
        (fun pl => pl.1.all fun c => !(EXCLUDED_DIRS.contains c)) = true) ∧
    generate_project_tree_items (FSTree.dir "root" [FSTree.file "build" "x"]) = [] := by
  constructor
  · intro t
    rw [List.all_eq_true]
    intro pl hpl
    exact generate_project_tree_items_paths t pl hpl
  · simp only [generate_project_tree_items, sortByName, insertByName, treeItems,
      FSTree.nameOf]
    rw [if_pos (by decide : EXCLUDED_DIRS.contains "build" = true)]
    simp [treeItems]

end Reviewer
